import Mathlib

/-
Verification of the keyspace-scanner core (src/scanner.py) against its
natural-language specification.  The Python source is shallowly embedded:
machine integers become Nat/Int with explicit reductions, Python `%` on a
positive modulus becomes Int.emod / Nat.mod (both are non-negative), byte
strings become lists of naturals below 256, text becomes lists of
characters, and the stateful supervisor loop becomes an explicit step
function on a state record.  Floating-point clock and speed values are
modelled by exact rationals.
-/

/- ===================================================================
   Section 1: elliptic-curve constants and scalar multiplication
   (BitcoinScanner.__init__ lines 40-43, _ecc_point_mul lines 104-121)
   =================================================================== -/

/-- secp256k1 field prime, line 40 of scanner.py. -/
def secp256k1_p : Nat := 0xFFFFFFFFFFFFFFFFFFFFFFFFFFFFFFFFFFFFFFFFFFFFFFFFFFFFFFFEFFFFFC2F

/-- secp256k1 generator x-coordinate, line 41. -/
def secp256k1_Gx : Nat := 0x79BE667EF9DCBBAC55A06295CE870B07029BFCDB2DCE28D959F2815B16F81798

/-- secp256k1 generator y-coordinate, line 42. -/
def secp256k1_Gy : Nat := 0x483ADA7726A3C4655DA4FBFC0E1108A8FD17B448A68554199C47D08FFB10D4B8

/-- secp256k1 group order, line 43. -/
def secp256k1_n : Nat := 0xFFFFFFFFFFFFFFFFFFFFFFFFFFFFFFFEBAAEDCE6AF48A03BBFD25E8CD0364141

/-- Binary modular exponentiation with explicit fuel (one bit of the
exponent is consumed per unit of fuel), modelling Python's built-in
three-argument `pow`.  257 units of fuel cover every exponent below
`2 ^ 257`, in particular the exponent `p - 2` used by the scanner. -/
def powModAux (fuel : Nat) (b e m : Nat) : Nat :=
  match fuel with
  | 0 => 1 % m
  | f + 1 =>
    if e = 0 then 1 % m
    else
      let r := powModAux f (b * b % m) (e / 2) m
      if e % 2 = 1 then r * b % m else r

/-- Models Python `pow(b, e, m)` for `e < 2 ^ 257`. -/
def powMod (b e m : Nat) : Nat := powModAux 257 (b % m) e m

/-- Models `pow(a, self.secp256k1_p - 2, self.secp256k1_p)`, the
Fermat-exponentiation modular inverse used in `_ecc_point_mul`
(lines 110 and 118).  Python accepts a negative base and reduces it
first; `Int.emod` with a positive modulus is non-negative, matching
Python's `%`. -/
def modInvP (a : Int) : Nat :=
  powMod (a % (secp256k1_p : Int)).toNat (secp256k1_p - 2) secp256k1_p

/-- One iteration of the `for i in reversed(range(256))` loop of
`_ecc_point_mul` (lines 107-120).  The running point `(Qx, Qy)` is
`none` until the first set bit is met, exactly as the Python pair
starts as `(None, None)`.

The doubling branch is transcribed statement by statement: Python first
reassigns `Qx = (l*l - 2*Qx) % p` (using the old `Qx`) and then computes
`Qy = (l*(Qx - (l*l - 2*Qx)) - Qy) % p`, in which every occurrence of
`Qx` is the freshly assigned value `qx'`.  The addition branch likewise
uses the freshly assigned `qx'` inside the `Qy` expression.  Stored
coordinates are the non-negative residues produced by `%`, so the state
carries naturals. -/
def eccStep (d : Nat) (q : Option (Nat × Nat)) (i : Nat) : Option (Nat × Nat) :=
  let q1 : Option (Nat × Nat) :=
    match q with
    | none => none
    | some (qx, qy) =>
      let l : Int := ((3 * qx * qx : Int) * (modInvP (2 * qy) : Int)) % (secp256k1_p : Int)
      let qx' : Int := (l * l - 2 * (qx : Int)) % (secp256k1_p : Int)
      let qy' : Int := (l * (qx' - (l * l - 2 * qx')) - (qy : Int)) % (secp256k1_p : Int)
      some (qx'.toNat, qy'.toNat)
  if d.testBit i then
    match q1 with
    | none => some (secp256k1_Gx, secp256k1_Gy)
    | some (qx, qy) =>
      let l : Int := (((qy : Int) - (secp256k1_Gy : Int)) *
          (modInvP ((qx : Int) - (secp256k1_Gx : Int)) : Int)) % (secp256k1_p : Int)
      let qx' : Int := (l * l - (qx : Int) - (secp256k1_Gx : Int)) % (secp256k1_p : Int)
      let qy' : Int := (l * ((secp256k1_Gx : Int) - qx') - (secp256k1_Gy : Int)) % (secp256k1_p : Int)
      some (qx'.toNat, qy'.toNat)
  else q1

/-- Loop spine of `_ecc_point_mul`: the bit indices 255, 254, ..., 0 in
the order Python visits them. -/
def eccBits : List Nat := (List.range 256).reverse

/-- `_ecc_point_mul` (lines 104-121): double-and-add over the 256 bit
positions of the scalar, most significant first.  Returns `none` exactly
when the Python routine would return the untouched pair `(None, None)`,
i.e. when no bit below 256 is set. -/
def eccPointMul (d : Nat) : Option (Nat × Nat) :=
  eccBits.foldl (eccStep d) none

/-- Modelled from the spec: standard short-Weierstrass affine doubling
on secp256k1 ("Scalar multiplication must be implemented via a standard
double-and-add method ... sign/order of subtraction in slope formulas"),
used only to compare the source's doubling against the correct formula
`x3 = l^2 - 2*x1`, `y3 = l*(x1 - x3) - y1`. -/
def standardDouble (qx qy : Nat) : Nat × Nat :=
  let l : Int := ((3 * qx * qx : Int) * (modInvP (2 * qy) : Int)) % (secp256k1_p : Int)
  let x3 : Int := (l * l - 2 * (qx : Int)) % (secp256k1_p : Int)
  let y3 : Int := (l * ((qx : Int) - x3) - (qy : Int)) % (secp256k1_p : Int)
  (x3.toNat, y3.toNat)

/-- The secp256k1 curve equation `y^2 = x^3 + 7` over the prime field,
stated on the non-negative residues the scanner stores. -/
def onCurve (q : Nat × Nat) : Prop :=
  (q.2 * q.2) % secp256k1_p = (q.1 * q.1 * q.1 + 7) % secp256k1_p

instance (q : Nat × Nat) : Decidable (onCurve q) := by
  unfold onCurve; infer_instance

/- ===================================================================
   Section 2: candidate generation
   (generate_valid_private_key, lines 123-130)
   =================================================================== -/

/-- Models `int.from_bytes(bs, 'big')`. -/
def fromBytesBE (bs : List Nat) : Nat :=
  bs.foldl (fun acc b => acc * 256 + b) 0

/-- Models `generate_valid_private_key` (lines 123-130).  Each loop
iteration draws a fresh 32-byte candidate from the secure source; the
loop runs until a candidate encodes a scalar in `[1, n-1]` or the
shutdown flag is observed, in which case the empty byte string is
returned.  The stream of draws made before shutdown interrupts is the
explicit argument; exhausting it models the flag being set. -/
def generate_valid_private_key (draws : List (List Nat)) : List Nat :=
  match draws with
  | [] => []
  | c :: rest =>
    if 1 ≤ fromBytesBE c ∧ fromBytesBE c < secp256k1_n then c
    else generate_valid_private_key rest

/- ===================================================================
   Section 3: configuration and the batch-size controller
   (Config lines 22-31, scan_addresses lines 286-298)
   =================================================================== -/

/-- Config.INITIAL_BATCH_SIZE, line 23. -/
def INITIAL_BATCH_SIZE : Nat := 100000

/-- Config.MAX_BATCH_SIZE, line 24. -/
def MAX_BATCH_SIZE : Nat := 500000

/-- Config.MIN_BATCH_SIZE, line 25. -/
def MIN_BATCH_SIZE : Nat := 10000

/-- Config.STATS_INTERVAL, line 26 (2.0 seconds). -/
def STATS_INTERVAL : ℚ := 2

/-- Config.TARGET_SPEED, line 28. -/
def TARGET_SPEED : Nat := 5000000

/-- The `current_speed` computation of lines 289-290:
`elapsed = now - start; speed = total_checked / elapsed if elapsed > 0 else 0`.
Clock readings and the resulting speed are modelled by exact rationals;
the Python floats `0.8` and `1.2` below are likewise taken exactly
(`TARGET_SPEED * 0.8` is exactly 4000000.0 in IEEE arithmetic as well). -/
def measuredSpeed (now start : ℚ) (totalChecked : Nat) : ℚ :=
  if now - start > 0 then (totalChecked : ℚ) / (now - start) else 0

/-- The throughput-driven resizing rule of lines 292-296: double
(capped at MAX_BATCH_SIZE) below 80% of target, halve with Python
floor division (floored at MIN_BATCH_SIZE) above 120%, otherwise keep. -/
def updateBatch (speed : ℚ) (b : Nat) : Nat :=
  if speed < (TARGET_SPEED : ℚ) * (8 / 10) then min (b * 2) MAX_BATCH_SIZE
  else if speed > (TARGET_SPEED : ℚ) * (12 / 10) then max (b / 2) MIN_BATCH_SIZE
  else b

/-- Lines 287-298 of scan_addresses: on each loop pass the controller
fires only when at least STATS_INTERVAL has elapsed since
`last_stats_time`; it then recomputes `current_speed`, applies the
resizing rule, and stamps `last_stats_time = current_time`.  The result
is the triple (current_speed, last_stats_time, batch_size). -/
def statsStep (now lastStats start : ℚ) (totalChecked : Nat) (speed : ℚ) (b : Nat) :
    ℚ × ℚ × Nat :=
  if now - lastStats ≥ STATS_INTERVAL then
    let s := measuredSpeed now start totalChecked
    (s, now, updateBatch s b)
  else (speed, lastStats, b)

/- ===================================================================
   Section 4: result sink and the supervisor loop
   (worker lines 164-166, scan_addresses lines 264-326)
   =================================================================== -/

/-- One found record, the `(wif, address, balance)` tuple a worker
appends on a match (line 162); the whole record is written with a
single `f.write` call (line 275), so it is modelled as atomic. -/
structure FoundRec where
  wif : List Char
  address : List Char
  balance : Int
deriving DecidableEq

/-- Observable result-sink events of the drain loop, lines 272-277:
appending one complete record to FOUND_FILE, and incrementing the
externally visible `found_count`. -/
inductive SinkEvent where
  | write (r : FoundRec)
  | incFound
deriving DecidableEq

/-- Event trace of lines 272-277 for one batch of matches pulled off
the result queue: for each match, first the append of its record to
FOUND_FILE (line 274-275), then the `found_count` increment (line 276). -/
def matchEvents (batch : List FoundRec) : List SinkEvent :=
  batch.flatMap (fun r => [SinkEvent.write r, SinkEvent.incFound])

/-- Event trace of the full result-queue drain (the
`while not result_queue.empty()` loop, lines 272-277). -/
def drainEvents (results : List (List FoundRec)) : List SinkEvent :=
  results.flatMap matchEvents

/-- The records appended to FOUND_FILE by a trace of sink events. -/
def writtenRecords (evs : List SinkEvent) : List FoundRec :=
  evs.filterMap (fun e => match e with
    | SinkEvent.write r => some r
    | SinkEvent.incFound => none)

/-- Number of `found_count` increments in a trace of sink events. -/
def incCount (evs : List SinkEvent) : Nat :=
  (evs.filter (fun e => match e with
    | SinkEvent.write _ => false
    | SinkEvent.incFound => true)).length

/-- Supervisor phases: the main loop of `scan_addresses` is `running`;
once the `finally` block (lines 311-326) has torn the pool down the
process is `stopped` and terminal. -/
inductive Phase where
  | running
  | stopped
deriving DecidableEq

/-- The supervisor state touched by `scan_addresses` (lines 244-326):
the adaptive batch size, the aggregate counters, the clock stamps, the
three manager queues, the append-only FOUND_FILE contents, the shared
shutdown flag and the phase. -/
structure SupState where
  batchSize : Nat
  totalChecked : Nat
  foundCount : Nat
  speed : ℚ
  lastStats : ℚ
  startTime : ℚ
  taskQueue : List (Option Nat)
  resultQueue : List (List FoundRec)
  progressQueue : List Nat
  foundFile : List FoundRec
  shutdown : Bool
  phase : Phase
deriving DecidableEq

/-- The signal handler `_handle_signal` (lines 56-59): it only sets the
shared shutdown flag. -/
def handleSignal (s : SupState) : SupState := { s with shutdown := true }

/-- A worker delivering the matches of a finished (or interrupted)
batch: `if found: result_queue.put(found)` (lines 164-165).  Workers
observing the shutdown flag mid-batch break out and still deliver the
matches found so far (lines 147-148 followed by 164-165). -/
def workerPutResults (found : List FoundRec) (s : SupState) : SupState :=
  { s with resultQueue := s.resultQueue ++ [found] }

/-- The `finally` block of `scan_addresses` (lines 311-320): set the
shutdown flag, enqueue one `None` sentinel per worker, join/terminate
the workers, and print the final statistics.  The result queue is not
read anywhere in this block, and the state it produces is terminal. -/
def supervisorCleanup (nThreads : Nat) (s : SupState) : SupState :=
  { s with shutdown := true,
           taskQueue := s.taskQueue ++ List.replicate nThreads none,
           phase := Phase.stopped }

/-- One pass of the `while not self.shutdown_flag.is_set()` loop of
`scan_addresses` (lines 266-310), taking the current clock reading as
input; when the flag is observed set, the loop exits into the `finally`
block.  In loop order: feed one batch-size task (line 268), drain the
result queue appending each record to FOUND_FILE and bumping
`found_count` (lines 272-277), drain the progress queue into
`total_checked` (lines 279-284, guarded by `processed > 0`), then run
the cadenced stats/batch update (lines 287-298). -/
def supervisorIter (nThreads : Nat) (now : ℚ) (s : SupState) : SupState :=
  if s.shutdown then supervisorCleanup nThreads s
  else
    let s1 := { s with taskQueue := s.taskQueue ++ [some s.batchSize] }
    let records := s1.resultQueue.flatten
    let s2 := { s1 with foundFile := s1.foundFile ++ records,
                        foundCount := s1.foundCount + records.length,
                        resultQueue := [] }
    let processed := s2.progressQueue.foldl (· + ·) 0
    let tc := if processed > 0 then s2.totalChecked + processed else s2.totalChecked
    let s3 := { s2 with totalChecked := tc, progressQueue := [] }
    let r := statsStep now s3.lastStats s3.startTime s3.totalChecked s3.speed s3.batchSize
    { s3 with speed := r.1, lastStats := r.2.1, batchSize := r.2.2 }

/-- The supervisor state at the start of a scan (lines 259-262): fresh
counters, batch size at INITIAL_BATCH_SIZE, empty queues and file. -/
def initialSupState (start : ℚ) : SupState :=
  { batchSize := INITIAL_BATCH_SIZE
    totalChecked := 0
    foundCount := 0
    speed := 0
    lastStats := start
    startTime := start
    taskQueue := []
    resultQueue := []
    progressQueue := []
    foundFile := []
    shutdown := false
    phase := Phase.running }

/- ===================================================================
   Section 5: target-set construction and membership
   (load_address_database lines 203-234, worker lookup lines 157-162)
   =================================================================== -/

/-- The whitespace characters stripped by Python's `str.strip()`
(ASCII range; further Unicode whitespace is out of scope for the
tab-separated dataset). -/
def isPyWS (c : Char) : Bool :=
  c = ' ' || c = '\t' || c = '\n' || c = '\x0d' || c = '\x0b' || c = '\x0c'

/-- Removal of the maximal whitespace suffix, the right half of
`str.strip()`. -/
def trimRight (cs : List Char) : List Char :=
  match cs with
  | [] => []
  | c :: rest =>
    match trimRight rest with
    | [] => if isPyWS c then [] else [c]
    | r => c :: r

/-- Models Python `str.strip()`: drop the maximal whitespace head and
tail. -/
def trimWS (cs : List Char) : List Char :=
  trimRight (cs.dropWhile isPyWS)

/-- Models Python `str.split('\t')`: splitting on every tab, keeping
empty fields, with `''.split('\t') == ['']`. -/
def splitOnTab (cs : List Char) : List (List Char) :=
  match cs with
  | [] => [[]]
  | c :: rest =>
    match splitOnTab rest with
    | [] => [[c]]
    | part :: parts =>
      if c = '\t' then [] :: part :: parts else (c :: part) :: parts

/-- Decimal digit test and value. -/
def isDigitCh (c : Char) : Bool := '0' ≤ c && c ≤ '9'

/-- Numeric value of a decimal digit string (empty means 0, as in the
integer part of Python's float literal ".5"). -/
def digitsToNat (cs : List Char) : Nat :=
  cs.foldl (fun acc c => acc * 10 + (c.toNat - '0'.toNat)) 0

/-- Models `int(float(s))` on line 219 for plain decimal notation:
surrounding whitespace is skipped (as `float` does), an optional sign,
then digits with at most one decimal point and at least one digit;
`int` truncates toward zero, so the value is the signed integer part.
Exponent, infinity and NaN spellings, and IEEE rounding of huge
literals, are not modelled: the dataset balances in scope are plain
decimal numerals.  `none` models the ValueError that makes line 222
skip the record. -/
def parseBalance (cs : List Char) : Option Int :=
  let t := trimWS cs
  let signed : Int × List Char :=
    match t with
    | '-' :: r => (-1, r)
    | '+' :: r => (1, r)
    | _ => (1, t)
  let intPart := signed.2.takeWhile isDigitCh
  let rest := signed.2.drop intPart.length
  match rest with
  | [] => if intPart = [] then none else some (signed.1 * (digitsToNat intPart : Int))
  | '.' :: fracPart =>
    if fracPart.all isDigitCh && (intPart ≠ [] || fracPart ≠ []) then
      some (signed.1 * (digitsToNat intPart : Int))
    else none
  | _ => none

/-- Lines 215-223 of `load_address_database`, for a single line of the
dataset: strip the line, split it on tabs, require at least two fields
with the first starting in '1' or '3', parse the balance, and deliver
the (stripped) address paired with its balance.  `none` covers both the
failed guard on line 217 and the ValueError path of line 222; in either
case the line is skipped and loading continues. -/
def parseLine (line : List Char) : Option (List Char × Int) :=
  if 2 ≤ (splitOnTab (trimWS line)).length then
    if ((splitOnTab (trimWS line)).getD 0 []).head? = some '1' ∨
        ((splitOnTab (trimWS line)).getD 0 []).head? = some '3' then
      match parseBalance ((splitOnTab (trimWS line)).getD 1 []) with
      | some bal => some (trimWS ((splitOnTab (trimWS line)).getD 0 []), bal)
      | none => none
    else none
  else none

/-- The records accepted during the loading loop, in file order: the
`address_list` / `balance_list` pairs before sorting (lines 220-221). -/
def parsedPairs (lines : List (List Char)) : List (List Char × Int) :=
  lines.filterMap parseLine

/-- Comparison by address used for the key-sort of lines 226-228. -/
def keyLE (a b : List Char × Int) : Prop := a.1 ≤ b.1

instance : DecidableRel keyLE := fun a b => by
  unfold keyLE; infer_instance

instance : IsTotal (List Char × Int) keyLE :=
  ⟨fun a b => le_total a.1 b.1⟩

instance : IsTrans (List Char × Int) keyLE :=
  ⟨fun _ _ _ hab hbc => le_trans hab hbc⟩

/-- Lines 226-228: the parallel lists are permuted into address order
(`sorted` with the address as key).  Python's `sorted` is a stable
sort, so a stable insertion sort by the address key produces the same
pair sequence. -/
def loadDatabase (lines : List (List Char)) : List (List Char × Int) :=
  List.insertionSort keyLE (parsedPairs lines)

/-- The sorted `self.address_list`. -/
def addressList (lines : List (List Char)) : List (List Char) :=
  (loadDatabase lines).map Prod.fst

/-- The sorted `self.balance_list`. -/
def balanceList (lines : List (List Char)) : List Int :=
  (loadDatabase lines).map Prod.snd

/-- The binary search of `bisect.bisect_left(a, x)`: the loop
`while lo < hi: mid = (lo+hi)//2; lo = mid+1 if a[mid] < x else hi = mid`,
with fuel covering every possible iteration count. -/
def bisectAux (l : List (List Char)) (x : List Char) :
    Nat → Nat → Nat → Nat
  | 0, lo, _ => lo
  | fuel + 1, lo, hi =>
    if lo < hi then
      let mid := (lo + hi) / 2
      if l.getD mid [] < x then bisectAux l x fuel (mid + 1) hi
      else bisectAux l x fuel lo mid
    else lo

/-- `bisect.bisect_left(self.address_list, address)` as called on
line 158.  `l.length + 1` units of fuel are enough since `hi - lo`
shrinks at every iteration. -/
def bisectLeft (l : List (List Char)) (x : List Char) : Nat :=
  bisectAux l x (l.length + 1) 0 l.length

/-- The worker membership test, lines 158-159:
`idx < len(self.address_list) and self.address_list[idx] == address`. -/
def containsAddr (l : List (List Char)) (a : List Char) : Bool :=
  let idx := bisectLeft l a
  decide (idx < l.length) && decide (l.getD idx [] = a)

/-- The balance fetched for a match, line 161:
`balance = self.balance_list[idx]`. -/
def lookupBalance (addrs : List (List Char)) (bals : List Int) (a : List Char) : Int :=
  bals.getD (bisectLeft addrs a) 0

/- ===================================================================
   Section 6: address derivation
   (private_key_to_address lines 80-102, using hashlib.sha256, a
   RIPEMD-160 digest (lines 61-78) and base58.b58encode)
   =================================================================== -/

/-- Reduction to a 32-bit word. -/
def w32 (n : Nat) : Nat := n % (2 ^ 32)

/-- Right rotation of a 32-bit word. -/
def rotr32 (x n : Nat) : Nat := w32 ((x >>> n) ||| (x <<< (32 - n)))

/-- Left rotation of a 32-bit word. -/
def rotl32 (x n : Nat) : Nat := w32 ((x <<< n) ||| (x >>> (32 - n)))

/-- Bitwise complement within 32 bits. -/
def not32 (x : Nat) : Nat := x ^^^ 4294967295

/-- Fixed-width big-endian byte serialization, modelling
`n.to_bytes(k, 'big')`. -/
def toBytesBE : Nat → Nat → List Nat
  | 0, _ => []
  | k + 1, n => toBytesBE k (n / 256) ++ [n % 256]

/-- Fixed-width little-endian byte serialization. -/
def toBytesLE : Nat → Nat → List Nat
  | 0, _ => []
  | k + 1, n => n % 256 :: toBytesLE k (n / 256)

/-- Little-endian byte-list to natural number. -/
def fromBytesLE (bs : List Nat) : Nat :=
  bs.foldr (fun b acc => acc * 256 + b) 0

/-- Big-endian 32-bit words of a byte string (fuel = list length). -/
def words32BEAux : Nat → List Nat → List Nat
  | 0, _ => []
  | _, [] => []
  | f + 1, bs => fromBytesBE (bs.take 4) :: words32BEAux f (bs.drop 4)

/-- Big-endian 32-bit words of a byte string. -/
def words32BE (bs : List Nat) : List Nat := words32BEAux bs.length bs

/-- Little-endian 32-bit words of a byte string (fuel = list length). -/
def words32LEAux : Nat → List Nat → List Nat
  | 0, _ => []
  | _, [] => []
  | f + 1, bs => fromBytesLE (bs.take 4) :: words32LEAux f (bs.drop 4)

/-- Little-endian 32-bit words of a byte string. -/
def words32LE (bs : List Nat) : List Nat := words32LEAux bs.length bs

/-- 64-byte blocks of a padded message (fuel = list length). -/
def chunks64Aux : Nat → List Nat → List (List Nat)
  | 0, _ => []
  | _, [] => []
  | f + 1, bs => bs.take 64 :: chunks64Aux f (bs.drop 64)

/-- 64-byte blocks of a padded message. -/
def chunks64 (bs : List Nat) : List (List Nat) := chunks64Aux bs.length bs

/-- SHA-256 working state (FIPS 180-4), the digest consumed on lines
92 and 99 via `hashlib.sha256`. -/
structure Sha256State where
  a : Nat
  b : Nat
  c : Nat
  d : Nat
  e : Nat
  f : Nat
  g : Nat
  h : Nat

/-- SHA-256 initial hash value. -/
def sha256Init : Sha256State :=
  ⟨1779033703, 3144134277, 1013904242, 2773480762,
   1359893119, 2600822924, 528734635, 1541459225⟩

/-- SHA-256 round constants. -/
def sha256K : List Nat :=
  [1116352408, 1899447441, 3049323471, 3921009573, 961987163, 1508970993,
   2453635748, 2870763221, 3624381080, 310598401, 607225278, 1426881987,
   1925078388, 2162078206, 2614888103, 3248222580, 3835390401, 4022224774,
   264347078, 604807628, 770255983, 1249150122, 1555081692, 1996064986,
   2554220882, 2821834349, 2952996808, 3210313671, 3336571891, 3584528711,
   113926993, 338241895, 666307205, 773529912, 1294757372, 1396182291,
   1695183700, 1986661051, 2177026350, 2456956037, 2730485921, 2820302411,
   3259730800, 3345764771, 3516065817, 3600352804, 4094571909, 275423344,
   430227734, 506948616, 659060556, 883997877, 958139571, 1322822218,
   1537002063, 1747873779, 1955562222, 2024104815, 2227730452, 2361852424,
   2428436474, 2756734187, 3204031479, 3329325298]

/-- SHA-256 message-schedule extension: appends the next word
`sigma1(w[t-2]) + w[t-7] + sigma0(w[t-15]) + w[t-16]`. -/
def sha256Extend (w : List Nat) : List Nat :=
  let s0 := fun x => rotr32 x 7 ^^^ rotr32 x 18 ^^^ (x >>> 3)
  let s1 := fun x => rotr32 x 17 ^^^ rotr32 x 19 ^^^ (x >>> 10)
  w ++ [w32 (w.getD (w.length - 16) 0 + s0 (w.getD (w.length - 15) 0) +
             w.getD (w.length - 7) 0 + s1 (w.getD (w.length - 2) 0))]

/-- Full 64-word SHA-256 message schedule from the 16 block words. -/
def sha256Schedule (w : List Nat) : List Nat := sha256Extend^[48] w

/-- One SHA-256 compression round. -/
def sha256Round (w : List Nat) (st : Sha256State) (t : Nat) : Sha256State :=
  let ch := (st.e &&& st.f) ^^^ (not32 st.e &&& st.g)
  let maj := (st.a &&& st.b) ^^^ (st.a &&& st.c) ^^^ (st.b &&& st.c)
  let bigS1 := rotr32 st.e 6 ^^^ rotr32 st.e 11 ^^^ rotr32 st.e 25
  let bigS0 := rotr32 st.a 2 ^^^ rotr32 st.a 13 ^^^ rotr32 st.a 22
  let t1 := w32 (st.h + bigS1 + ch + sha256K.getD t 0 + w.getD t 0)
  let t2 := w32 (bigS0 + maj)
  ⟨w32 (t1 + t2), st.a, st.b, st.c, w32 (st.d + t1), st.e, st.f, st.g⟩

/-- SHA-256 block compression plus Davies-Meyer feed-forward. -/
def sha256Block (st : Sha256State) (block : List Nat) : Sha256State :=
  let w := sha256Schedule (words32BE block)
  let r := (List.range 64).foldl (sha256Round w) st
  ⟨w32 (st.a + r.a), w32 (st.b + r.b), w32 (st.c + r.c), w32 (st.d + r.d),
   w32 (st.e + r.e), w32 (st.f + r.f), w32 (st.g + r.g), w32 (st.h + r.h)⟩

/-- SHA-256 padding: a 0x80 byte, zeros to 56 mod 64, and the bit
length as a 64-bit big-endian quantity. -/
def sha256Pad (msg : List Nat) : List Nat :=
  let padLen := (64 - (msg.length + 9) % 64) % 64
  msg ++ 0x80 :: List.replicate padLen 0 ++ toBytesBE 8 (8 * msg.length)

/-- The SHA-256 digest as a 32-byte string, modelling
`hashlib.sha256(data).digest()`. -/
def sha256 (msg : List Nat) : List Nat :=
  let st := (chunks64 (sha256Pad msg)).foldl sha256Block sha256Init
  toBytesBE 4 st.a ++ toBytesBE 4 st.b ++ toBytesBE 4 st.c ++ toBytesBE 4 st.d ++
  toBytesBE 4 st.e ++ toBytesBE 4 st.f ++ toBytesBE 4 st.g ++ toBytesBE 4 st.h

/-- RIPEMD-160 working state, the second digest of the pipeline
(`_init_ripemd160`, lines 61-78, applied on lines 94-96).  All the
fallback implementations tried there compute the same standard
RIPEMD-160 function. -/
structure Rmd160State where
  h0 : Nat
  h1 : Nat
  h2 : Nat
  h3 : Nat
  h4 : Nat

/-- One line (left or right) of the RIPEMD-160 compression. -/
structure RmdLine where
  a : Nat
  b : Nat
  c : Nat
  d : Nat
  e : Nat

/-- RIPEMD-160 initial state. -/
def rmd160Init : Rmd160State :=
  ⟨1732584193, 4023233417, 2562383102, 271733878, 3285377520⟩

/-- RIPEMD-160 selection functions, by round index `j` in 0..79. -/
def rmdF (j x y z : Nat) : Nat :=
  if j < 16 then x ^^^ y ^^^ z
  else if j < 32 then (x &&& y) ||| (not32 x &&& z)
  else if j < 48 then (x ||| not32 y) ^^^ z
  else if j < 64 then (x &&& z) ||| (y &&& not32 z)
  else x ^^^ (y ||| not32 z)

/-- RIPEMD-160 left-line round constants. -/
def rmdKL : List Nat := [0, 1518500249, 1859775393, 2400959708, 2840853838]

/-- RIPEMD-160 right-line round constants. -/
def rmdKR : List Nat := [1352829926, 1548603684, 1836072691, 2053994217, 0]

/-- RIPEMD-160 left-line message-word selection. -/
def rmdRL : List Nat :=
  [0, 1, 2, 3, 4, 5, 6, 7, 8, 9, 10, 11, 12, 13, 14, 15,
   7, 4, 13, 1, 10, 6, 15, 3, 12, 0, 9, 5, 2, 14, 11, 8,
   3, 10, 14, 4, 9, 15, 8, 1, 2, 7, 0, 6, 13, 11, 5, 12,
   1, 9, 11, 10, 0, 8, 12, 4, 13, 3, 7, 15, 14, 5, 6, 2,
   4, 0, 5, 9, 7, 12, 2, 10, 14, 1, 3, 8, 11, 6, 15, 13]

/-- RIPEMD-160 right-line message-word selection. -/
def rmdRR : List Nat :=
  [5, 14, 7, 0, 9, 2, 11, 4, 13, 6, 15, 8, 1, 10, 3, 12,
   6, 11, 3, 7, 0, 13, 5, 10, 14, 15, 8, 12, 4, 9, 1, 2,
   15, 5, 1, 3, 7, 14, 6, 9, 11, 8, 12, 2, 10, 0, 4, 13,
   8, 6, 4, 1, 3, 11, 15, 0, 5, 12, 2, 13, 9, 7, 10, 14,
   12, 15, 10, 4, 1, 5, 8, 7, 6, 2, 13, 14, 0, 3, 9, 11]

/-- RIPEMD-160 left-line rotation amounts. -/
def rmdSL : List Nat :=
  [11, 14, 15, 12, 5, 8, 7, 9, 11, 13, 14, 15, 6, 7, 9, 8,
   7, 6, 8, 13, 11, 9, 7, 15, 7, 12, 15, 9, 11, 7, 13, 12,
   11, 13, 6, 7, 14, 9, 13, 15, 14, 8, 13, 6, 5, 12, 7, 5,
   11, 12, 14, 15, 14, 15, 9, 8, 9, 14, 5, 6, 8, 6, 5, 12,
   9, 15, 5, 11, 6, 8, 13, 12, 5, 12, 13, 14, 11, 8, 5, 6]

/-- RIPEMD-160 right-line rotation amounts. -/
def rmdSR : List Nat :=
  [8, 9, 9, 11, 13, 15, 15, 5, 7, 7, 8, 11, 14, 14, 12, 6,
   9, 13, 15, 7, 12, 8, 9, 11, 7, 7, 12, 7, 6, 15, 13, 11,
   9, 7, 15, 11, 8, 6, 6, 14, 12, 13, 5, 14, 13, 13, 7, 5,
   15, 5, 8, 11, 14, 14, 6, 14, 6, 9, 12, 9, 12, 5, 15, 8,
   8, 5, 12, 9, 12, 5, 14, 6, 8, 13, 6, 5, 15, 13, 11, 11]

/-- One round of one RIPEMD-160 line; the right (parallel) line uses
the selection functions in reverse order, `f(79 - j)`. -/
def rmdStep (rev : Bool) (x k r s : List Nat) (st : RmdLine) (j : Nat) : RmdLine :=
  let fj := if rev then rmdF (79 - j) else rmdF j
  let t := w32 (rotl32 (w32 (st.a + fj st.b st.c st.d +
      x.getD (r.getD j 0) 0 + k.getD (j / 16) 0)) (s.getD j 0) + st.e)
  ⟨st.e, t, st.b, rotl32 st.c 10, st.d⟩

/-- RIPEMD-160 block compression. -/
def rmd160Block (st : Rmd160State) (block : List Nat) : Rmd160State :=
  let x := words32LE block
  let start : RmdLine := ⟨st.h0, st.h1, st.h2, st.h3, st.h4⟩
  let l := (List.range 80).foldl (rmdStep false x rmdKL rmdRL rmdSL) start
  let r := (List.range 80).foldl (rmdStep true x rmdKR rmdRR rmdSR) start
  ⟨w32 (st.h1 + l.c + r.d), w32 (st.h2 + l.d + r.e), w32 (st.h3 + l.e + r.a),
   w32 (st.h4 + l.a + r.b), w32 (st.h0 + l.b + r.c)⟩

/-- RIPEMD-160 padding: as SHA-256 but with the bit length appended in
little-endian order. -/
def rmd160Pad (msg : List Nat) : List Nat :=
  let padLen := (64 - (msg.length + 9) % 64) % 64
  msg ++ 0x80 :: List.replicate padLen 0 ++ toBytesLE 8 (8 * msg.length)

/-- The RIPEMD-160 digest as a 20-byte string, modelling
`ripemd160.digest()` on line 96. -/
def ripemd160 (msg : List Nat) : List Nat :=
  let st := (chunks64 (rmd160Pad msg)).foldl rmd160Block rmd160Init
  toBytesLE 4 st.h0 ++ toBytesLE 4 st.h1 ++ toBytesLE 4 st.h2 ++
  toBytesLE 4 st.h3 ++ toBytesLE 4 st.h4

/-- The base-58 alphabet used by the `base58` package. -/
def b58Alphabet : List Char :=
  "123456789ABCDEFGHJKLMNPQRSTUVWXYZabcdefghijkmnopqrstuvwxyz".toList

/-- Character of a base-58 digit. -/
def b58Char (d : Nat) : Char := b58Alphabet.getD d '1'

/-- Base-58 digit of a character, `none` for a character outside the
alphabet. -/
def b58Val (c : Char) : Option Nat :=
  (List.range 58).find? (fun d => b58Char d = c)

/-- Digit values of a character string; `none` if any character is
outside the alphabet. -/
def b58Vals : List Char → Option (List Nat)
  | [] => some []
  | c :: r =>
    match b58Val c, b58Vals r with
    | some d, some ds => some (d :: ds)
    | _, _ => none

/-- Models `base58.b58encode` on a byte string: the bytes are read as
one big-endian integer whose base-58 digits are emitted most
significant first, with one '1' prepended per leading zero byte. -/
def b58encode (bs : List Nat) : List Char :=
  let z := (bs.takeWhile (fun b => b = 0)).length
  List.replicate z '1' ++ (Nat.digits 58 (fromBytesBE bs)).reverse.map b58Char

/-- Models `base58.b58decode`: the digit string is read as one base-58
integer emitted as big-endian bytes, with one zero byte prepended per
leading '1'; `none` models the decoding error on a character outside
the alphabet. -/
def b58decode (s : List Char) : Option (List Nat) :=
  match b58Vals s with
  | none => none
  | some ds =>
    let z := (s.takeWhile (fun c => c = '1')).length
    some (List.replicate z 0 ++ (Nat.digits 256 (Nat.ofDigits 58 ds.reverse)).reverse)

/-- `private_key_to_address` (lines 80-102): length and range guards,
scalar multiplication, compressed-point serialization with the parity
prefix `0x02 + (Qy % 2)`, SHA-256 then RIPEMD-160, version byte 0x00,
a 4-byte double-SHA-256 checksum, and base-58 encoding.  The bare
`except` of line 101 is modelled by the `none` branches: within the
modelled guards the arithmetic itself is total (`_ecc_point_mul`
returns an untouched `None` pair only for a scalar with no set bit,
which the range guard excludes, and its stored coordinates are reduced
residues below `p < 2^256`, so `Qx.to_bytes(32, 'big')` cannot
overflow). -/
def privateKeyToAddress (pk : List Nat) : Option (List Char) :=
  if pk.length = 32 then
    let d := fromBytesBE pk
    if 1 ≤ d ∧ d < secp256k1_n then
      match eccPointMul d with
      | some (qx, qy) =>
        let pubkey := (2 + qy % 2) :: toBytesBE 32 qx
        let h160 := ripemd160 (sha256 pubkey)
        let checksum := (sha256 (sha256 (0 :: h160))).take 4
        some (b58encode (0 :: (h160 ++ checksum)))
      | none => none
    else none
  else none

/- ===================================================================
   Theorems.  Helper lemmas first, then one theorem per claim
   (with witnesses and counterexamples where required).
   =================================================================== -/

lemma statsStep_tick {now ls start : ℚ} {tc : Nat} {sp : ℚ} {b : Nat}
    (h : now - ls ≥ STATS_INTERVAL) :
    statsStep now ls start tc sp b =
      (measuredSpeed now start tc, now, updateBatch (measuredSpeed now start tc) b) := by
  simp [statsStep, h]

lemma statsStep_skip {now ls start : ℚ} {tc : Nat} {sp : ℚ} {b : Nat}
    (h : ¬ now - ls ≥ STATS_INTERVAL) :
    statsStep now ls start tc sp b = (sp, ls, b) := by
  simp [statsStep, h]

lemma updateBatch_low {speed : ℚ} {b : Nat}
    (h : speed < (TARGET_SPEED : ℚ) * (8 / 10)) :
    updateBatch speed b = min (b * 2) MAX_BATCH_SIZE := by
  simp [updateBatch, h]

lemma updateBatch_high {speed : ℚ} {b : Nat}
    (h2 : (TARGET_SPEED : ℚ) * (12 / 10) < speed) :
    updateBatch speed b = max (b / 2) MIN_BATCH_SIZE := by
  have h1 : ¬ speed < (TARGET_SPEED : ℚ) * (8 / 10) := by
    have hle : (TARGET_SPEED : ℚ) * (8 / 10) ≤ (TARGET_SPEED : ℚ) * (12 / 10) := by
      norm_num [TARGET_SPEED]
    exact not_lt.mpr (le_of_lt (lt_of_le_of_lt hle h2))
  simp [updateBatch, h1, h2]

lemma updateBatch_band {speed : ℚ} {b : Nat}
    (h1 : (TARGET_SPEED : ℚ) * (8 / 10) ≤ speed)
    (h2 : speed ≤ (TARGET_SPEED : ℚ) * (12 / 10)) :
    updateBatch speed b = b := by
  simp [updateBatch, not_lt.mpr h1, not_lt.mpr h2]

/-- C9: every non-empty byte string returned by
`generate_valid_private_key` encodes a scalar `d` with `1 ≤ d < n`;
an out-of-range candidate (`0` or `≥ n`) is never returned or clamped:
the loop simply moves on to the next fresh draw. -/
theorem c9_generate_valid_private_key_in_range :
    (∀ draws, generate_valid_private_key draws ≠ [] →
      1 ≤ fromBytesBE (generate_valid_private_key draws) ∧
      fromBytesBE (generate_valid_private_key draws) < secp256k1_n) ∧
    (∀ c rest, ¬ (1 ≤ fromBytesBE c ∧ fromBytesBE c < secp256k1_n) →
      generate_valid_private_key (c :: rest) = generate_valid_private_key rest) := by
  constructor
  · intro draws
    induction draws with
    | nil => intro hne; exact absurd rfl hne
    | cons c rest ih =>
      intro hne
      by_cases h : 1 ≤ fromBytesBE c ∧ fromBytesBE c < secp256k1_n
      · rw [generate_valid_private_key, if_pos h]
        exact h
      · rw [generate_valid_private_key, if_neg h] at hne ⊢
        exact ih hne
  · intro c rest h
    rw [generate_valid_private_key, if_neg h]

/-- Witness for C9 at a concrete draw stream: the first candidate
encodes the scalar 7, which is returned and is in range. -/
theorem c9_witness :
    1 ≤ fromBytesBE (generate_valid_private_key [List.replicate 31 0 ++ [7]]) ∧
    fromBytesBE (generate_valid_private_key [List.replicate 31 0 ++ [7]]) < secp256k1_n :=
  c9_generate_valid_private_key_in_range.1 [List.replicate 31 0 ++ [7]] (by decide)

set_option maxRecDepth 100000 in
/-- C1 (code bug): `_ecc_point_mul` does not compute scalar multiples
of the generator.  At the scalar `d = 2` it returns a pair that does
not even satisfy the curve equation, because the doubling branch
computes the new y-coordinate from the already reassigned `Qx`.  The
same slope and x-coordinate fed through the standard doubling formula
`y3 = l*(x1 - x3) - y1` give the true double of the generator: the same
x-coordinate, a different y-coordinate, and a point that does satisfy
the curve equation.  (For `d = 1` no doubling runs, so the published
golden test vector can only hold for scalars whose processing never
doubles, which excludes the all-bits-one scalar.) -/
theorem c1_ecc_point_mul_wrong :
    eccPointMul 2 =
      some (89565891926547004231252920425935692360644145829622209833684329913297188986597,
            109255849812968279266957097400427888880815413415220141897500711098968913588194) ∧
    ¬ onCurve (89565891926547004231252920425935692360644145829622209833684329913297188986597,
               109255849812968279266957097400427888880815413415220141897500711098968913588194) ∧
    standardDouble secp256k1_Gx secp256k1_Gy =
      (89565891926547004231252920425935692360644145829622209833684329913297188986597,
       12158399299693830322967808612713398636155367887041628176798871954788371653930) ∧
    onCurve (89565891926547004231252920425935692360644145829622209833684329913297188986597,
             12158399299693830322967808612713398636155367887041628176798871954788371653930) ∧
    (109255849812968279266957097400427888880815413415220141897500711098968913588194 : Nat) ≠
      12158399299693830322967808612713398636155367887041628176798871954788371653930 := by
  refine ⟨?_, by decide, ?_, by decide, by decide⟩
  · decide
  · decide

/-- C4: on a cadence tick (at least STATS_INTERVAL since the last
stats update) the next batch size is exactly `min (2*b) MAX_BATCH_SIZE`
when the measured throughput is below 0.8 of target, exactly
`max (b / 2) MIN_BATCH_SIZE` (Python floor division) when above 1.2 of
target, and unchanged in between; off-tick passes change nothing, every
change stamps `last_stats_time := now`, and hence a second change
cannot happen less than STATS_INTERVAL after a first one. -/
theorem c4_batch_controller_rule :
    ∀ (now ls start : ℚ) (tc : Nat) (sp : ℚ) (b : Nat),
      (now - ls ≥ STATS_INTERVAL →
        (measuredSpeed now start tc < (TARGET_SPEED : ℚ) * (8 / 10) →
          (statsStep now ls start tc sp b).2.2 = min (b * 2) MAX_BATCH_SIZE) ∧
        ((TARGET_SPEED : ℚ) * (12 / 10) < measuredSpeed now start tc →
          (statsStep now ls start tc sp b).2.2 = max (b / 2) MIN_BATCH_SIZE) ∧
        ((TARGET_SPEED : ℚ) * (8 / 10) ≤ measuredSpeed now start tc →
          measuredSpeed now start tc ≤ (TARGET_SPEED : ℚ) * (12 / 10) →
          (statsStep now ls start tc sp b).2.2 = b)) ∧
      (¬ now - ls ≥ STATS_INTERVAL →
        (statsStep now ls start tc sp b).2.2 = b ∧
        (statsStep now ls start tc sp b).2.1 = ls) ∧
      ((statsStep now ls start tc sp b).2.2 ≠ b →
        now - ls ≥ STATS_INTERVAL ∧ (statsStep now ls start tc sp b).2.1 = now) ∧
      (∀ (now2 : ℚ) (tc2 : Nat),
        (statsStep now ls start tc sp b).2.2 ≠ b →
        (statsStep now2 (statsStep now ls start tc sp b).2.1 start tc2
            (statsStep now ls start tc sp b).1 (statsStep now ls start tc sp b).2.2).2.2 ≠
          (statsStep now ls start tc sp b).2.2 →
        now2 - now ≥ STATS_INTERVAL) := by
  intro now ls start tc sp b
  by_cases hc : now - ls ≥ STATS_INTERVAL
  · rw [statsStep_tick hc]
    refine ⟨fun _ => ⟨?_, ?_, ?_⟩, fun h => absurd hc h, fun _ => ⟨hc, rfl⟩, ?_⟩
    · intro h; exact updateBatch_low h
    · intro h; exact updateBatch_high h
    · intro h1 h2; exact updateBatch_band h1 h2
    · intro now2 tc2 _ hchg2
      by_cases hc2 : now2 - now ≥ STATS_INTERVAL
      · exact hc2
      · rw [statsStep_skip hc2] at hchg2
        exact absurd rfl hchg2
  · rw [statsStep_skip hc]
    exact ⟨fun h => absurd h hc, fun _ => ⟨rfl, rfl⟩,
      fun h => absurd rfl h, fun _ _ h => absurd rfl h⟩

/-- Witness for C4 at a concrete tick: at time 2 with last update at
time 0, measured throughput 0 (below 0.8 of target) doubles the batch
size from 100000, capped at the ceiling. -/
theorem c4_witness :
    (statsStep 2 0 0 0 0 100000).2.2 = min (100000 * 2) MAX_BATCH_SIZE :=
  (((c4_batch_controller_rule 2 0 0 0 0 100000).1 (by norm_num [STATS_INTERVAL])).1)
    (by norm_num [measuredSpeed, TARGET_SPEED])

/-- C3 counterexample: a concrete scheduling step on which the claimed
memory guard cannot hold.  The resize decision of lines 286-298 is a
function of the clock, the counters and the current batch size alone —
the program never reads available memory, so its transition is the same
whatever the machine's memory headroom.  On this step (a cadence tick
with throughput below target) the batch size is doubled from 100000 to
200000, moving away from the floor MIN_BATCH_SIZE, whereas the claim
requires a shrink toward the floor whenever headroom is below the
safety threshold. -/
theorem c3_counterexample :
    (statsStep 2 0 0 0 0 100000).2.2 = 200000 ∧
    100000 < 200000 ∧ MIN_BATCH_SIZE < 100000 := by
  refine ⟨?_, by decide, by decide⟩
  rw [statsStep_tick (by norm_num [STATS_INTERVAL])]
  rw [updateBatch_low (by norm_num [measuredSpeed, TARGET_SPEED])]
  decide

/-- C3 (amended): the batch-size controller has no memory guard; its
decision depends only on the measured throughput and the current size.
Whenever a cadence tick measures throughput below 0.8 of target the
next size is exactly `min (2*b) MAX_BATCH_SIZE` — strictly growing away
from the floor for every nonzero size below the ceiling — regardless of
any memory condition, which the code never inspects. -/
theorem c3_throughput_only_controller :
    ∀ (now ls start : ℚ) (tc : Nat) (sp : ℚ) (b : Nat),
      now - ls ≥ STATS_INTERVAL →
      measuredSpeed now start tc < (TARGET_SPEED : ℚ) * (8 / 10) →
      (statsStep now ls start tc sp b).2.2 = min (b * 2) MAX_BATCH_SIZE ∧
      (b ≠ 0 → b < MAX_BATCH_SIZE → b < (statsStep now ls start tc sp b).2.2) := by
  intro now ls start tc sp b hc hlow
  rw [statsStep_tick hc, updateBatch_low hlow]
  refine ⟨rfl, fun hb0 hbmax => ?_⟩
  show b < min (b * 2) MAX_BATCH_SIZE
  rcases Nat.lt_or_ge (b * 2) MAX_BATCH_SIZE with h | h
  · rw [min_eq_left (le_of_lt h)]
    omega
  · rw [min_eq_right h]
    exact hbmax

/-- Witness for C3's amended statement at a concrete tick: from size
50000 the controller grows to 100000 even at zero measured throughput. -/
theorem c3_witness :
    (statsStep 4 1 1 0 0 50000).2.2 = min (50000 * 2) MAX_BATCH_SIZE ∧
    (50000 ≠ 0 → 50000 < MAX_BATCH_SIZE → 50000 < (statsStep 4 1 1 0 0 50000).2.2) :=
  c3_throughput_only_controller 4 1 1 0 0 50000 (by norm_num [STATS_INTERVAL])
    (by norm_num [measuredSpeed, TARGET_SPEED])

lemma writtenRecords_append (l1 l2 : List SinkEvent) :
    writtenRecords (l1 ++ l2) = writtenRecords l1 ++ writtenRecords l2 := by
  simp [writtenRecords, List.filterMap_append]

lemma incCount_append (l1 l2 : List SinkEvent) :
    incCount (l1 ++ l2) = incCount l1 + incCount l2 := by
  simp [incCount, List.filter_append]

lemma matchEvents_cons (r : FoundRec) (t : List FoundRec) :
    matchEvents (r :: t) = SinkEvent.write r :: SinkEvent.incFound :: matchEvents t := rfl

lemma writtenRecords_cons_write (r : FoundRec) (l : List SinkEvent) :
    writtenRecords (SinkEvent.write r :: l) = r :: writtenRecords l := rfl

lemma writtenRecords_cons_inc (l : List SinkEvent) :
    writtenRecords (SinkEvent.incFound :: l) = writtenRecords l := rfl

lemma incCount_cons_write (r : FoundRec) (l : List SinkEvent) :
    incCount (SinkEvent.write r :: l) = incCount l := rfl

lemma incCount_cons_inc (l : List SinkEvent) :
    incCount (SinkEvent.incFound :: l) = incCount l + 1 := rfl

lemma writtenRecords_matchEvents (batch : List FoundRec) :
    writtenRecords (matchEvents batch) = batch := by
  induction batch with
  | nil => rfl
  | cons r t ih =>
    rw [matchEvents_cons, writtenRecords_cons_write, writtenRecords_cons_inc, ih]

lemma incCount_matchEvents (batch : List FoundRec) :
    incCount (matchEvents batch) = batch.length := by
  induction batch with
  | nil => rfl
  | cons r t ih =>
    rw [matchEvents_cons, incCount_cons_write, incCount_cons_inc, ih, List.length_cons]

lemma drainEvents_eq_matchEvents_flatten (results : List (List FoundRec)) :
    drainEvents results = matchEvents results.flatten := by
  induction results with
  | nil => rfl
  | cons batch t ih =>
    simp only [drainEvents, List.flatMap_cons, List.flatten_cons] at *
    rw [ih]
    simp [matchEvents, List.flatMap_append]

lemma count_write_matchEvents (batch : List FoundRec) (r : FoundRec) :
    (matchEvents batch).count (SinkEvent.write r) = batch.count r := by
  induction batch with
  | nil => rfl
  | cons x t ih =>
    rw [matchEvents_cons]
    simp only [List.count_cons, beq_iff_eq]
    rw [ih]
    rcases eq_or_ne x r with h | h
    · subst h
      simp
    · simp [h]

lemma incCount_le_written_take (batch : List FoundRec) :
    ∀ k, incCount ((matchEvents batch).take k) ≤
      (writtenRecords ((matchEvents batch).take k)).length := by
  induction batch with
  | nil =>
    intro k
    simp [matchEvents, incCount, writtenRecords]
  | cons r t ih =>
    intro k
    rw [matchEvents_cons]
    match k with
    | 0 =>
      simp [incCount, writtenRecords]
    | 1 =>
      rw [List.take_succ_cons, List.take_zero]
      simp [incCount, writtenRecords]
    | Nat.succ (Nat.succ k') =>
      rw [List.take_succ_cons, List.take_succ_cons, incCount_cons_write,
        incCount_cons_inc, writtenRecords_cons_write, writtenRecords_cons_inc,
        List.length_cons]
      have := ih k'
      omega

/-- C8: for every match pulled off the result queue, the supervisor
appends its complete record to FOUND_FILE strictly before incrementing
the externally visible `found_count` (in every initial segment of the
sink-event trace the increments never outnumber the writes), each match
event yields exactly one record (the multiset of written records equals
the multiset of drained matches — no loss, duplication, or partial
record, a record being written by a single atomic `f.write`), and one
supervisor pass advances FOUND_FILE and `found_count` by exactly that
trace. -/
theorem c8_record_written_before_counted :
    ∀ (results : List (List FoundRec)),
      writtenRecords (drainEvents results) = results.flatten ∧
      (∀ r : FoundRec,
        (drainEvents results).count (SinkEvent.write r) = results.flatten.count r) ∧
      (∀ k, incCount ((drainEvents results).take k) ≤
        (writtenRecords ((drainEvents results).take k)).length) ∧
      (∀ (nT : Nat) (now : ℚ) (s : SupState), s.shutdown = false →
        (supervisorIter nT now s).foundFile =
          s.foundFile ++ writtenRecords (drainEvents s.resultQueue) ∧
        (supervisorIter nT now s).foundCount =
          s.foundCount + incCount (drainEvents s.resultQueue)) := by
  intro results
  refine ⟨?_, ?_, ?_, ?_⟩
  · rw [drainEvents_eq_matchEvents_flatten, writtenRecords_matchEvents]
  · intro r
    rw [drainEvents_eq_matchEvents_flatten, count_write_matchEvents]
  · intro k
    rw [drainEvents_eq_matchEvents_flatten]
    exact incCount_le_written_take results.flatten k
  · intro nT now s hsd
    have hIter : supervisorIter nT now s =
        let s1 := { s with taskQueue := s.taskQueue ++ [some s.batchSize] }
        let records := s1.resultQueue.flatten
        let s2 := { s1 with foundFile := s1.foundFile ++ records,
                            foundCount := s1.foundCount + records.length,
                            resultQueue := [] }
        let processed := s2.progressQueue.foldl (· + ·) 0
        let tc := if processed > 0 then s2.totalChecked + processed else s2.totalChecked
        let s3 := { s2 with totalChecked := tc, progressQueue := [] }
        let r := statsStep now s3.lastStats s3.startTime s3.totalChecked s3.speed s3.batchSize
        { s3 with speed := r.1, lastStats := r.2.1, batchSize := r.2.2 } := by
      rw [supervisorIter, if_neg (by simp [hsd])]
    rw [hIter]
    constructor
    · show s.foundFile ++ s.resultQueue.flatten =
        s.foundFile ++ writtenRecords (drainEvents s.resultQueue)
      rw [drainEvents_eq_matchEvents_flatten, writtenRecords_matchEvents]
    · show s.foundCount + s.resultQueue.flatten.length =
        s.foundCount + incCount (drainEvents s.resultQueue)
      rw [drainEvents_eq_matchEvents_flatten, incCount_matchEvents]

/-- Witness for C8 at a concrete queue state: one drained batch of two
matches is written to FOUND_FILE, in order, before being counted. -/
theorem c8_witness :
    (supervisorIter 8 1 { initialSupState 0 with
        resultQueue := [[⟨['k'], ['1', 'a'], 5⟩, ⟨['m'], ['1', 'b'], 0⟩]] }).foundFile =
      (initialSupState 0).foundFile ++
        writtenRecords (drainEvents [[⟨['k'], ['1', 'a'], 5⟩, ⟨['m'], ['1', 'b'], 0⟩]]) ∧
    (supervisorIter 8 1 { initialSupState 0 with
        resultQueue := [[⟨['k'], ['1', 'a'], 5⟩, ⟨['m'], ['1', 'b'], 0⟩]] }).foundCount =
      (initialSupState 0).foundCount +
        incCount (drainEvents [[⟨['k'], ['1', 'a'], 5⟩, ⟨['m'], ['1', 'b'], 0⟩]]) :=
  (c8_record_written_before_counted [[⟨['k'], ['1', 'a'], 5⟩, ⟨['m'], ['1', 'b'], 0⟩]]).2.2.2
    8 1 { initialSupState 0 with
      resultQueue := [[⟨['k'], ['1', 'a'], 5⟩, ⟨['m'], ['1', 'b'], 0⟩]] } rfl

/-- C2 (code bug): a match delivered to the result queue by a worker
that observed the shutdown flag mid-batch is never written to
FOUND_FILE.  Concretely: from a fresh running supervisor, a worker puts
a completed match batch on the result queue, the signal handler sets
the shutdown flag, and the next supervisor pass goes straight to the
`finally` cleanup (lines 311-320), which never reads the result queue:
the state becomes `stopped` — terminal — with the match still queued
and FOUND_FILE empty, contradicting the claim that every queued match
is flushed before the Supervisor stops. -/
theorem c2_queued_match_lost_on_shutdown :
    (supervisorIter 8 1 (handleSignal (workerPutResults
        [⟨['k'], ['1', 'a'], 5⟩] (initialSupState 0)))).phase = Phase.stopped ∧
    (supervisorIter 8 1 (handleSignal (workerPutResults
        [⟨['k'], ['1', 'a'], 5⟩] (initialSupState 0)))).foundFile = [] ∧
    (supervisorIter 8 1 (handleSignal (workerPutResults
        [⟨['k'], ['1', 'a'], 5⟩] (initialSupState 0)))).foundCount = 0 ∧
    (supervisorIter 8 1 (handleSignal (workerPutResults
        [⟨['k'], ['1', 'a'], 5⟩] (initialSupState 0)))).resultQueue =
      [[⟨['k'], ['1', 'a'], 5⟩]] :=
  ⟨rfl, rfl, rfl, rfl⟩

lemma sorted_getD_le {l : List (List Char)} (hs : l.Sorted (· ≤ ·))
    {i j : Nat} (hij : i ≤ j) (hj : j < l.length) :
    l.getD i [] ≤ l.getD j [] := by
  have hi : i < l.length := lt_of_le_of_lt hij hj
  rw [List.getD_eq_getElem l [] hi, List.getD_eq_getElem l [] hj]
  rcases Nat.lt_or_ge i j with h | h
  · exact (List.pairwise_iff_getElem.mp hs) i j hi hj h
  · have : i = j := le_antisymm hij h
    subst this
    exact le_refl _

lemma bisectAux_spec {l : List (List Char)} (hs : l.Sorted (· ≤ ·)) (x : List Char) :
    ∀ (fuel lo hi : Nat), lo ≤ hi → hi ≤ l.length → hi - lo ≤ fuel →
      (∀ k, k < lo → l.getD k [] < x) →
      (∀ k, hi ≤ k → k < l.length → x ≤ l.getD k []) →
      bisectAux l x fuel lo hi ≤ l.length ∧
      (∀ k, k < bisectAux l x fuel lo hi → l.getD k [] < x) ∧
      (∀ k, bisectAux l x fuel lo hi ≤ k → k < l.length → x ≤ l.getD k []) := by
  intro fuel
  induction fuel with
  | zero =>
    intro lo hi hlohi hhil hfuel hlow hhigh
    have : lo = hi := by omega
    subst this
    exact ⟨le_trans hlohi hhil, hlow, fun k hk => hhigh k hk⟩
  | succ f ih =>
    intro lo hi hlohi hhil hfuel hlow hhigh
    rw [bisectAux]
    by_cases hlt : lo < hi
    · rw [if_pos hlt]
      have hmidlt : (lo + hi) / 2 < hi := by omega
      have hmidge : lo ≤ (lo + hi) / 2 := by omega
      by_cases hm : l.getD ((lo + hi) / 2) [] < x
      · rw [if_pos hm]
        refine ih ((lo + hi) / 2 + 1) hi (by omega) hhil (by omega) ?_ hhigh
        intro k hk
        rcases Nat.lt_or_ge k lo with h | h
        · exact hlow k h
        · exact lt_of_le_of_lt
            (sorted_getD_le hs (by omega) (lt_of_lt_of_le hmidlt hhil)) hm
      · rw [if_neg hm]
        refine ih lo ((lo + hi) / 2) hmidge
          (le_trans (le_of_lt hmidlt) hhil) (by omega) hlow ?_
        intro k hk hkl
        exact le_trans (not_lt.mp hm) (sorted_getD_le hs hk hkl)
    · rw [if_neg hlt]
      have : lo = hi := by omega
      subst this
      exact ⟨le_trans hlohi hhil, hlow, fun k hk => hhigh k hk⟩

lemma bisectLeft_spec {l : List (List Char)} (hs : l.Sorted (· ≤ ·)) (x : List Char) :
    bisectLeft l x ≤ l.length ∧
    (∀ k, k < bisectLeft l x → l.getD k [] < x) ∧
    (∀ k, bisectLeft l x ≤ k → k < l.length → x ≤ l.getD k []) := by
  refine bisectAux_spec hs x (l.length + 1) 0 l.length (Nat.zero_le _) (le_refl _)
    (by omega) (fun k hk => absurd hk (Nat.not_lt_zero k)) (fun k hk hkl => absurd hkl (by omega))

/-- Membership through the worker's binary-search test agrees with list
membership on a sorted address list. -/
lemma containsAddr_iff {l : List (List Char)} (hs : l.Sorted (· ≤ ·)) (a : List Char) :
    containsAddr l a = true ↔ a ∈ l := by
  obtain ⟨hle, hbelow, habove⟩ := bisectLeft_spec hs a
  constructor
  · intro h
    simp only [containsAddr, Bool.and_eq_true, decide_eq_true_eq] at h
    obtain ⟨hlt, heq⟩ := h
    rw [List.getD_eq_getElem l [] hlt] at heq
    exact heq ▸ List.getElem_mem hlt
  · intro hmem
    obtain ⟨j, hj, hja⟩ := List.mem_iff_getElem.mp hmem
    have hjge : bisectLeft l a ≤ j := by
      by_contra hlt
      have := hbelow j (not_le.mp hlt)
      rw [List.getD_eq_getElem l [] hj, hja] at this
      exact lt_irrefl a this
    have hidx : bisectLeft l a < l.length := lt_of_le_of_lt hjge hj
    have h1 : a ≤ l.getD (bisectLeft l a) [] := habove _ (le_refl _) hidx
    have h2 : l.getD (bisectLeft l a) [] ≤ l.getD j [] := sorted_getD_le hs hjge hj
    rw [List.getD_eq_getElem l [] hj, hja] at h2
    have heq : l.getD (bisectLeft l a) [] = a := le_antisymm h2 h1
    simp only [containsAddr, Bool.and_eq_true, decide_eq_true_eq]
    exact ⟨hidx, heq⟩

lemma loadDatabase_sorted (lines : List (List Char)) :
    (loadDatabase lines).Sorted keyLE :=
  List.sorted_insertionSort keyLE (parsedPairs lines)

lemma addressList_sorted (lines : List (List Char)) :
    (addressList lines).Sorted (· ≤ ·) :=
  List.Pairwise.map Prod.fst (fun _ _ h => h) (loadDatabase_sorted lines)

lemma loadDatabase_perm (lines : List (List Char)) :
    (loadDatabase lines).Perm (parsedPairs lines) :=
  List.perm_insertionSort keyLE (parsedPairs lines)

lemma addressList_mem_iff (lines : List (List Char)) (a : List Char) :
    a ∈ addressList lines ↔ a ∈ (parsedPairs lines).map Prod.fst :=
  ((loadDatabase_perm lines).map Prod.fst).mem_iff

lemma key_unique {db : List (List Char × Int)} (hnd : (db.map Prod.fst).Nodup)
    {p q : List Char × Int} (hp : p ∈ db) (hq : q ∈ db) (hfst : p.1 = q.1) : p = q := by
  obtain ⟨i, hi, hpi⟩ := List.mem_iff_getElem.mp hp
  obtain ⟨j, hj, hqj⟩ := List.mem_iff_getElem.mp hq
  have hi' : i < (db.map Prod.fst).length := by
    rw [List.length_map]; exact hi
  have hj' : j < (db.map Prod.fst).length := by
    rw [List.length_map]; exact hj
  have hmap : (db.map Prod.fst)[i] = (db.map Prod.fst)[j] := by
    rw [List.getElem_map, List.getElem_map, hpi, hqj, hfst]
  have hij : i = j := hnd.getElem_inj_iff.mp hmap
  subst hij
  rw [← hpi, ← hqj]

/-- C6: after the database is loaded and key-sorted, the worker's
binary-search membership test (lines 158-159) accepts exactly the
addresses inserted during construction — no false positives, no false
negatives — and for records with pairwise distinct addresses a positive
lookup returns the balance stored alongside the matched address
(line 161). -/
theorem c6_membership_exact_and_balance :
    ∀ (lines : List (List Char)) (a : List Char),
      (containsAddr (addressList lines) a = true ↔
        a ∈ (parsedPairs lines).map Prod.fst) ∧
      (∀ b : Int, ((parsedPairs lines).map Prod.fst).Nodup →
        (a, b) ∈ parsedPairs lines →
        containsAddr (addressList lines) a = true ∧
        lookupBalance (addressList lines) (balanceList lines) a = b) := by
  intro lines a
  have hmemiff : containsAddr (addressList lines) a = true ↔
      a ∈ (parsedPairs lines).map Prod.fst :=
    (containsAddr_iff (addressList_sorted lines) a).trans (addressList_mem_iff lines a)
  refine ⟨hmemiff, ?_⟩
  intro b hnd hab
  have hmem : a ∈ (parsedPairs lines).map Prod.fst :=
    List.mem_map.mpr ⟨(a, b), hab, rfl⟩
  have hcont : containsAddr (addressList lines) a = true := hmemiff.mpr hmem
  refine ⟨hcont, ?_⟩
  have hdb : (a, b) ∈ loadDatabase lines := (loadDatabase_perm lines).mem_iff.mpr hab
  have hnd' : ((loadDatabase lines).map Prod.fst).Nodup :=
    (((loadDatabase_perm lines).map Prod.fst).nodup_iff).mpr hnd
  simp only [containsAddr, Bool.and_eq_true, decide_eq_true_eq] at hcont
  obtain ⟨hidx, heq⟩ := hcont
  have hlen : (addressList lines).length = (loadDatabase lines).length := by
    rw [addressList, List.length_map]
  have hidx' : bisectLeft (addressList lines) a < (loadDatabase lines).length := by
    rw [← hlen]; exact hidx
  have hpair : (loadDatabase lines)[bisectLeft (addressList lines) a] ∈ loadDatabase lines :=
    List.getElem_mem hidx'
  have hfst : ((loadDatabase lines)[bisectLeft (addressList lines) a]).1 = a := by
    rw [List.getD_eq_getElem _ [] hidx] at heq
    rw [← List.getElem_map Prod.fst]
    exact heq
  have hpq : (loadDatabase lines)[bisectLeft (addressList lines) a] = (a, b) :=
    key_unique hnd' hpair hdb (by rw [hfst])
  have hblen : bisectLeft (addressList lines) a < (balanceList lines).length := by
    rw [balanceList, List.length_map]; exact hidx'
  rw [lookupBalance, List.getD_eq_getElem _ 0 hblen]
  have hsnd : (balanceList lines)[bisectLeft (addressList lines) a] =
      ((loadDatabase lines)[bisectLeft (addressList lines) a]).2 :=
    List.getElem_map Prod.snd
  rw [hsnd, hpq]

/-- Witness for C6 at a concrete two-record dataset: the address of the
second line is found and its stored balance 7 is returned. -/
theorem c6_witness :
    containsAddr (addressList ["1b\t5".toList, "1a\t7".toList]) "1a".toList = true ∧
    lookupBalance (addressList ["1b\t5".toList, "1a\t7".toList])
      (balanceList ["1b\t5".toList, "1a\t7".toList]) "1a".toList = 7 :=
  (c6_membership_exact_and_balance ["1b\t5".toList, "1a\t7".toList] "1a".toList).2
    7 (by decide) (by decide)

lemma trimRight_head {c : Char} (hc : isPyWS c = false) (cs : List Char) :
    (trimRight (c :: cs)).head? = some c := by
  cases htr : trimRight cs with
  | nil => simp [trimRight, htr, hc]
  | cons d t => simp [trimRight, htr]

lemma trimWS_head {cs : List Char} {c : Char} (h : cs.head? = some c)
    (hc : isPyWS c = false) : (trimWS cs).head? = some c := by
  cases cs with
  | nil => simp at h
  | cons d t =>
    have hdc : d = c := by simpa using h
    subst hdc
    rw [trimWS, List.dropWhile_cons, if_neg (by simp [hc])]
    exact trimRight_head hc t

lemma parseLine_head {line : List Char} {p : List Char × Int}
    (h : parseLine line = some p) :
    p.1.head? = some '1' ∨ p.1.head? = some '3' := by
  unfold parseLine at h
  split at h
  · split at h
    case isTrue hguard =>
      split at h
      case h_1 bal hbal =>
        obtain rfl : (trimWS ((splitOnTab (trimWS line)).getD 0 []), bal) = p := by
          injection h
        rcases hguard with h1 | h3
        · exact Or.inl (trimWS_head h1 (by decide))
        · exact Or.inr (trimWS_head h3 (by decide))
      case h_2 => exact absurd h (by simp)
    case isFalse => exact absurd h (by simp)
  · exact absurd h (by simp)

/-- C10: the loading filter of line 217 admits only records whose
identifier starts with '1' or '3' (the inner strip cannot remove that
first character, since it is not whitespace); an address beginning with
any other character is therefore never in the target set and the
worker's membership test always rejects it, so it can never produce a
match. -/
theorem c10_only_1_or_3_loaded :
    ∀ (lines : List (List Char)) (a : List Char),
      a.head? ≠ some '1' → a.head? ≠ some '3' →
      containsAddr (addressList lines) a = false := by
  intro lines a h1 h3
  rw [← Bool.not_eq_true]
  intro hcont
  have hmem : a ∈ (parsedPairs lines).map Prod.fst :=
    ((containsAddr_iff (addressList_sorted lines) a).trans
      (addressList_mem_iff lines a)).mp hcont
  obtain ⟨p, hp, hpa⟩ := List.mem_map.mp hmem
  obtain ⟨line, _, hsome⟩ := List.mem_filterMap.mp hp
  rcases parseLine_head hsome with h | h
  · exact h1 (hpa ▸ h)
  · exact h3 (hpa ▸ h)

/-- Witness for C10: an address starting with 'X' is rejected against a
database loaded from one valid record. -/
theorem c10_witness :
    containsAddr (addressList ["1a\t5".toList]) "Xa".toList = false :=
  c10_only_1_or_3_loaded ["1a\t5".toList] "Xa".toList (by decide) (by decide)

/-- C7 counterexample: the record consisting of the identifier "1abc"
alone — well-formed under the spec, which makes the balance field
optional — is not loaded: `len(parts) >= 2` on line 217 rejects every
single-field line, so the dataset built from it is empty. -/
theorem c7_counterexample :
    parseLine "1abc".toList = none ∧ loadDatabase ["1abc".toList] = [] := by
  constructor
  · decide
  · decide

/-- C7 (amended): during loading every line that fails to parse — too
few fields, unparseable balance — is skipped without aborting the load
(the remaining lines contribute exactly what they would contribute
without it), and every record with at least two fields, an identifier
accepted by the filter and a parseable numeric balance is loaded; but a
record must have a balance field: every single-field line, including a
bare identifier, is skipped. -/
theorem c7_malformed_skipped :
    (∀ (xs ys : List (List Char)) (bad : List Char), parseLine bad = none →
      parsedPairs (xs ++ bad :: ys) = parsedPairs (xs ++ ys)) ∧
    (∀ (lines : List (List Char)) (line : List Char) (pr : List Char × Int),
      line ∈ lines → parseLine line = some pr → pr ∈ parsedPairs lines) ∧
    (∀ line : List Char, (splitOnTab (trimWS line)).length < 2 →
      parseLine line = none) := by
  refine ⟨?_, ?_, ?_⟩
  · intro xs ys bad hbad
    simp [parsedPairs, List.filterMap_append, List.filterMap_cons, hbad]
  · intro lines line pr hmem hsome
    exact List.mem_filterMap.mpr ⟨line, hmem, hsome⟩
  · intro line hlt
    rw [parseLine, if_neg (by omega)]

/-- Witness for C7's amended statement: a malformed line "zzz" between
two good records is skipped while both records load, the good record
"3c<TAB>2.5" is loaded with truncated balance 2, and the single-field
line "1abc" is skipped. -/
theorem c7_witness :
    parsedPairs ["1a\t5".toList, "zzz".toList, "3c\t2.5".toList] =
      parsedPairs ["1a\t5".toList, "3c\t2.5".toList] ∧
    ("3c".toList, (2 : Int)) ∈ parsedPairs ["1a\t5".toList, "3c\t2.5".toList] ∧
    parseLine "1abc".toList = none :=
  ⟨c7_malformed_skipped.1 ["1a\t5".toList] ["3c\t2.5".toList] "zzz".toList (by decide),
   c7_malformed_skipped.2.1 ["1a\t5".toList, "3c\t2.5".toList] "3c\t2.5".toList
     ("3c".toList, 2) (by decide) (by decide),
   c7_malformed_skipped.2.2 "1abc".toList (by decide)⟩

lemma eccStep_isSome_of_isSome (d i qx qy : Nat) :
    (eccStep d (some (qx, qy)) i).isSome := by
  unfold eccStep
  by_cases hb : d.testBit i <;> simp [hb]

lemma eccStep_none_of_testBit_true {d i : Nat} (hb : d.testBit i = true) :
    eccStep d none i = some (secp256k1_Gx, secp256k1_Gy) := by
  unfold eccStep
  simp [hb]

lemma eccStep_none_of_testBit_false {d i : Nat} (hb : d.testBit i = false) :
    eccStep d none i = none := by
  unfold eccStep
  simp [hb]

lemma eccLoop_isSome (d : Nat) :
    ∀ (is : List Nat) (q : Option (Nat × Nat)),
      (q.isSome ∨ ∃ i ∈ is, d.testBit i = true) →
      (is.foldl (eccStep d) q).isSome := by
  intro is
  induction is with
  | nil =>
    intro q h
    rcases h with h | ⟨i, hi, _⟩
    · exact h
    · exact absurd hi (List.not_mem_nil i)
  | cons i t ih =>
    intro q h
    rw [List.foldl_cons]
    rcases q with _ | ⟨qx, qy⟩
    · by_cases hb : d.testBit i = true
      · rw [eccStep_none_of_testBit_true hb]
        exact ih _ (Or.inl (by simp))
      · rw [eccStep_none_of_testBit_false (Bool.eq_false_iff.mpr hb)]
        apply ih
        right
        rcases h with h | ⟨j, hj, hbit⟩
        · simp at h
        · rcases List.mem_cons.mp hj with rfl | hjt
          · exact absurd hbit hb
          · exact ⟨j, hjt, hbit⟩
    · have := eccStep_isSome_of_isSome d i qx qy
      obtain ⟨p, hp⟩ := Option.isSome_iff_exists.mp this
      rw [hp]
      exact ih _ (Or.inl (by simp))

lemma exists_testBit_lt_256 {d : Nat} (h1 : 1 ≤ d) (h2 : d < secp256k1_n) :
    ∃ i, i < 256 ∧ d.testBit i = true := by
  by_contra hno
  push_neg at hno
  have hall : ∀ i, d.testBit i = false := by
    intro i
    by_cases hi : i < 256
    · exact Bool.eq_false_iff.mpr (hno i hi)
    · exact Nat.testBit_eq_false_of_lt
        (lt_of_lt_of_le (lt_trans h2 (by norm_num [secp256k1_n]))
          (Nat.pow_le_pow_right (by norm_num) (not_lt.mp hi)))
  have := Nat.zero_of_testBit_eq_false hall
  omega

lemma eccPointMul_isSome {d : Nat} (h1 : 1 ≤ d) (h2 : d < secp256k1_n) :
    (eccPointMul d).isSome := by
  obtain ⟨i, hi, hbit⟩ := exists_testBit_lt_256 h1 h2
  apply eccLoop_isSome
  exact Or.inr ⟨i, by simp [eccBits, List.mem_reverse, List.mem_range]; exact hi, hbit⟩

lemma toBytesBE_length (k n : Nat) : (toBytesBE k n).length = k := by
  induction k generalizing n with
  | zero => rfl
  | succ k ih => simp [toBytesBE, ih]

lemma toBytesBE_lt (k n : Nat) : ∀ b ∈ toBytesBE k n, b < 256 := by
  induction k generalizing n with
  | zero => intro b hb; simp [toBytesBE] at hb
  | succ k ih =>
    intro b hb
    simp only [toBytesBE, List.mem_append, List.mem_singleton] at hb
    rcases hb with hb | rfl
    · exact ih _ b hb
    · exact Nat.mod_lt _ (by norm_num)

lemma toBytesLE_length (k n : Nat) : (toBytesLE k n).length = k := by
  induction k generalizing n with
  | zero => rfl
  | succ k ih => simp [toBytesLE, ih]

lemma toBytesLE_lt (k n : Nat) : ∀ b ∈ toBytesLE k n, b < 256 := by
  induction k generalizing n with
  | zero => intro b hb; simp [toBytesLE] at hb
  | succ k ih =>
    intro b hb
    simp only [toBytesLE, List.mem_cons] at hb
    rcases hb with rfl | hb
    · exact Nat.mod_lt _ (by norm_num)
    · exact ih _ b hb

lemma sha256_length (msg : List Nat) : (sha256 msg).length = 32 := by
  rw [sha256]
  simp [List.length_append, toBytesBE_length]

lemma sha256_lt (msg : List Nat) : ∀ b ∈ sha256 msg, b < 256 := by
  intro b hb
  rw [sha256] at hb
  simp only [List.mem_append] at hb
  rcases hb with ((((((h | h) | h) | h) | h) | h) | h) | h <;> exact toBytesBE_lt 4 _ b h

lemma ripemd160_length (msg : List Nat) : (ripemd160 msg).length = 20 := by
  rw [ripemd160]
  simp [List.length_append, toBytesLE_length]

lemma ripemd160_lt (msg : List Nat) : ∀ b ∈ ripemd160 msg, b < 256 := by
  intro b hb
  rw [ripemd160] at hb
  simp only [List.mem_append] at hb
  rcases hb with (((h | h) | h) | h) | h <;> exact toBytesLE_lt 4 _ b h

lemma fromBytesBE_foldl_acc (l : List Nat) (a : Nat) :
    l.foldl (fun acc b => acc * 256 + b) a =
      a * 256 ^ l.length + l.foldl (fun acc b => acc * 256 + b) 0 := by
  induction l generalizing a with
  | nil => simp
  | cons b t ih =>
    rw [List.foldl_cons, List.foldl_cons, ih (a * 256 + b), ih (0 * 256 + b)]
    simp only [List.length_cons, pow_succ]
    ring

lemma fromBytesBE_eq_ofDigits (bs : List Nat) :
    fromBytesBE bs = Nat.ofDigits 256 bs.reverse := by
  induction bs using List.reverseRecOn with
  | nil => simp [fromBytesBE]
  | append_singleton l b ih =>
    rw [fromBytesBE, List.foldl_append, List.foldl_cons, List.foldl_nil,
      List.reverse_append]
    simp only [List.reverse_cons, List.reverse_nil, List.nil_append,
      List.singleton_append, Nat.ofDigits_cons]
    rw [← fromBytesBE, ih]
    ring

lemma fromBytesBE_replicate_zero (z : Nat) (rest : List Nat) :
    fromBytesBE (List.replicate z 0 ++ rest) = fromBytesBE rest := by
  induction z with
  | zero => simp
  | succ z ih =>
    rw [List.replicate_succ, List.cons_append, fromBytesBE, List.foldl_cons]
    simpa [fromBytesBE] using ih

lemma fromBytesBE_pos {c : Nat} (hc : c ≠ 0) (r : List Nat) :
    0 < fromBytesBE (c :: r) := by
  rw [fromBytesBE, List.foldl_cons, fromBytesBE_foldl_acc]
  simp only [Nat.zero_mul, Nat.zero_add]
  have hc1 : 1 ≤ c := Nat.one_le_iff_ne_zero.mpr hc
  have hp : 1 ≤ 256 ^ r.length := Nat.one_le_pow _ _ (by norm_num)
  have hm := Nat.mul_le_mul hc1 hp
  omega

lemma ofDigits_replicate_zero (b z : Nat) :
    Nat.ofDigits b (List.replicate z 0) = 0 := by
  induction z with
  | zero => rfl
  | succ z ih => rw [List.replicate_succ, Nat.ofDigits_cons, ih]; simp

lemma dropWhile_head_not {p : Nat → Bool} :
    ∀ (l : List Nat) {c : Nat}, (l.dropWhile p).head? = some c → p c = false := by
  intro l
  induction l with
  | nil => intro c h; simp at h
  | cons x t ih =>
    intro c h
    rw [List.dropWhile_cons] at h
    by_cases hx : p x = true
    · rw [if_pos hx] at h
      exact ih h
    · rw [if_neg hx] at h
      simp only [List.head?_cons, Option.some.injEq] at h
      subst h
      exact Bool.eq_false_iff.mpr hx

lemma digits_256_fromBytesBE {rest : List Nat} (hb : ∀ b ∈ rest, b < 256)
    (hh : ∀ c, rest.head? = some c → c ≠ 0) :
    (Nat.digits 256 (fromBytesBE rest)).reverse = rest := by
  rw [fromBytesBE_eq_ofDigits]
  rw [Nat.digits_ofDigits 256 (by norm_num) rest.reverse
    (fun l hl => hb l (List.mem_reverse.mp hl)) ?hlast]
  · exact List.reverse_reverse rest
  case hlast =>
    intro hne
    have hrne : rest ≠ [] := by
      intro h
      rw [h] at hne
      exact hne rfl
    rw [List.getLast_reverse]
    rcases rest with _ | ⟨c, t⟩
    · exact absurd rfl hrne
    · exact hh c rfl

lemma b58Val_b58Char : ∀ d, d < 58 → b58Val (b58Char d) = some d := by decide

lemma b58Char_ne_one : ∀ d, d < 58 → d ≠ 0 → b58Char d ≠ '1' := by decide

lemma b58Vals_append {l1 l2 : List Char} {d1 d2 : List Nat}
    (h1 : b58Vals l1 = some d1) (h2 : b58Vals l2 = some d2) :
    b58Vals (l1 ++ l2) = some (d1 ++ d2) := by
  induction l1 generalizing d1 with
  | nil =>
    simp only [b58Vals, Option.some.injEq] at h1
    subst h1
    simpa using h2
  | cons c t ih =>
    rw [b58Vals] at h1
    rcases hc : b58Val c with _ | v
    · rw [hc] at h1; exact absurd h1 (by simp)
    · rw [hc] at h1
      rcases ht : b58Vals t with _ | ds
      · rw [ht] at h1; exact absurd h1 (by simp)
      · rw [ht] at h1
        simp only [Option.some.injEq] at h1
        subst h1
        rw [List.cons_append, b58Vals, hc, ih ht]
        rfl

lemma b58Vals_replicate_one (z : Nat) :
    b58Vals (List.replicate z '1') = some (List.replicate z 0) := by
  induction z with
  | zero => rfl
  | succ z ih =>
    rw [List.replicate_succ, b58Vals, ih, List.replicate_succ]
    rfl

lemma b58Vals_map_b58Char {ds : List Nat} (h : ∀ d ∈ ds, d < 58) :
    b58Vals (ds.map b58Char) = some ds := by
  induction ds with
  | nil => rfl
  | cons d t ih =>
    rw [List.map_cons, b58Vals, b58Val_b58Char d (h d (by simp)),
      ih (fun x hx => h x (by simp [hx]))]

lemma takeWhile_replicate_append (z : Nat) (t : List Char) :
    (List.replicate z '1' ++ t).takeWhile (fun c => c = '1') =
      List.replicate z '1' ++ t.takeWhile (fun c => c = '1') := by
  induction z with
  | zero => simp
  | succ z ih =>
    simp only [List.replicate_succ, List.cons_append, List.takeWhile_cons]
    simp [ih]

lemma b58encode_def (bs : List Nat) :
    b58encode bs = List.replicate (bs.takeWhile (fun b => b = 0)).length '1' ++
      (Nat.digits 58 (fromBytesBE bs)).reverse.map b58Char := rfl

/-- Round trip of the base-58 layer: decoding an encoded byte string
(all bytes below 256) recovers it exactly, leading zero bytes
included. -/
theorem b58_roundtrip {bs : List Nat} (hb : ∀ b ∈ bs, b < 256) :
    b58decode (b58encode bs) = some bs := by
  have htake : bs.takeWhile (fun b => b = 0) =
      List.replicate (bs.takeWhile (fun b => b = 0)).length 0 := by
    apply List.eq_replicate_of_mem
    intro b hb'
    have := List.mem_takeWhile_imp hb'
    simpa using this
  have hsplit : List.replicate (bs.takeWhile (fun b => b = 0)).length 0 ++
      bs.dropWhile (fun b => b = 0) = bs := by
    rw [← htake]
    exact List.takeWhile_append_dropWhile _ _
  have hrest_head : ∀ c, (bs.dropWhile (fun b => b = 0)).head? = some c → c ≠ 0 := by
    intro c hc
    have := dropWhile_head_not bs hc
    simpa using this
  have hrest_lt : ∀ b ∈ bs.dropWhile (fun b => b = 0), b < 256 :=
    fun b hb' => hb b (List.dropWhile_subset _ hb')
  have hvbs : fromBytesBE bs = fromBytesBE (bs.dropWhile (fun b => b = 0)) := by
    conv_lhs => rw [← hsplit]
    exact fromBytesBE_replicate_zero _ _
  have hd58 : ∀ d ∈ (Nat.digits 58 (fromBytesBE bs)).reverse, d < 58 :=
    fun d hd => Nat.digits_lt_base (by norm_num) (List.mem_reverse.mp hd)
  have hvals : b58Vals (b58encode bs) =
      some (List.replicate (bs.takeWhile (fun b => b = 0)).length 0 ++
        (Nat.digits 58 (fromBytesBE bs)).reverse) := by
    rw [b58encode_def]
    exact b58Vals_append (b58Vals_replicate_one _) (b58Vals_map_b58Char hd58)
  have htail_takeWhile :
      ((Nat.digits 58 (fromBytesBE bs)).reverse.map b58Char).takeWhile
        (fun c => c = '1') = [] := by
    cases hdig : (Nat.digits 58 (fromBytesBE bs)).reverse with
    | nil => simp
    | cons c t =>
      have hne : fromBytesBE bs ≠ 0 := by
        intro h0
        rw [h0] at hdig
        simp at hdig
      have hlastne : (Nat.digits 58 (fromBytesBE bs)) ≠ [] := by
        intro h
        rw [h] at hdig
        simp at hdig
      have hcval : c = (Nat.digits 58 (fromBytesBE bs)).getLast hlastne := by
        have h1 : (Nat.digits 58 (fromBytesBE bs)).reverse.head? = some c := by
          rw [hdig]; rfl
        rw [List.head?_reverse, List.getLast?_eq_getLast _ hlastne] at h1
        exact (Option.some.inj h1).symm
      have hcne : c ≠ 0 := by
        rw [hcval]
        exact Nat.getLast_digit_ne_zero 58 hne
      have hclt : c < 58 := hd58 c (by rw [hdig]; simp)
      rw [List.map_cons]
      apply List.takeWhile_cons_of_neg
      simp only [decide_eq_true_eq]
      exact b58Char_ne_one c hclt hcne
  have hcount : ((b58encode bs).takeWhile (fun c => c = '1')).length =
      (bs.takeWhile (fun b => b = 0)).length := by
    rw [b58encode_def, takeWhile_replicate_append, htail_takeWhile]
    simp
  rw [b58decode, hvals]
  simp only [hcount]
  have hds : (List.replicate (bs.takeWhile (fun b => b = 0)).length 0 ++
      (Nat.digits 58 (fromBytesBE bs)).reverse).reverse =
      Nat.digits 58 (fromBytesBE bs) ++
        List.replicate (bs.takeWhile (fun b => b = 0)).length 0 := by
    rw [List.reverse_append, List.reverse_reverse, List.reverse_replicate]
  rw [hds, Nat.ofDigits_append, ofDigits_replicate_zero, Nat.ofDigits_digits,
    mul_zero, add_zero, hvbs, digits_256_fromBytesBE hrest_lt hrest_head, hsplit]

/-- C5: for every 32-byte scalar encoding in range `[1, n-1]`,
`private_key_to_address` (a pure function, hence deterministic)
produces an identifier whose base-58 decoding recovers the version byte
0x00, a 20-byte digest, and a 4-byte checksum equal to the first 4
bytes of SHA-256(SHA-256(version ‖ digest)). -/
theorem c5_address_checksum_roundtrip :
    ∀ pk : List Nat, pk.length = 32 →
      1 ≤ fromBytesBE pk → fromBytesBE pk < secp256k1_n →
      ∃ (addr : List Char) (h160 chk : List Nat),
        privateKeyToAddress pk = some addr ∧
        b58decode addr = some (0 :: (h160 ++ chk)) ∧
        h160.length = 20 ∧
        chk = (sha256 (sha256 (0 :: h160))).take 4 := by
  intro pk hlen hlo hhi
  obtain ⟨q, hq⟩ := Option.isSome_iff_exists.mp (eccPointMul_isSome hlo hhi)
  obtain ⟨qx, qy⟩ := q
  refine ⟨b58encode (0 :: (ripemd160 (sha256 ((2 + qy % 2) :: toBytesBE 32 qx)) ++
      (sha256 (sha256 (0 :: ripemd160 (sha256 ((2 + qy % 2) :: toBytesBE 32 qx))))).take 4)),
    ripemd160 (sha256 ((2 + qy % 2) :: toBytesBE 32 qx)),
    (sha256 (sha256 (0 :: ripemd160 (sha256 ((2 + qy % 2) :: toBytesBE 32 qx))))).take 4,
    ?_, ?_, ripemd160_length _, rfl⟩
  · simp only [privateKeyToAddress]
    rw [if_pos hlen, if_pos ⟨hlo, hhi⟩, hq]
  · apply b58_roundtrip
    intro b hbmem
    rcases List.mem_cons.mp hbmem with rfl | hbmem2
    · norm_num
    · rcases List.mem_append.mp hbmem2 with h | h
      · exact ripemd160_lt _ b h
      · exact sha256_lt _ b (List.take_subset 4 _ h)

/-- Witness for C5 at the concrete scalar 1 (the 32-byte big-endian
encoding of 1): the derived identifier decodes to a checksum-valid
version-and-digest pair. -/
theorem c5_witness :
    ∃ (addr : List Char) (h160 chk : List Nat),
      privateKeyToAddress (List.replicate 31 0 ++ [1]) = some addr ∧
      b58decode addr = some (0 :: (h160 ++ chk)) ∧
      h160.length = 20 ∧
      chk = (sha256 (sha256 (0 :: h160))).take 4 :=
  c5_address_checksum_roundtrip (List.replicate 31 0 ++ [1])
    (by decide) (by decide) (by decide)
